import Mathlib

/-
Verification development for the BinanceOrderBookAnalyzer repository.

The repository contains three Python scripts:
  * GIT_BinanceOrderBookAnalyzer.py  (order-book / trade-flow ratio scanner)
  * GITOrderFlowImbalanceAnalyzer.py (same pipeline, different constants)
  * GIT_SwingHighRejectionDetector.py (3-candle swing-high-rejection scanner)

Modelling conventions used throughout this file:
  * Python floats are modelled as exact rationals extended with the two
    non-finite values that actually arise in this code base: positive
    infinity (from the documented divide-by-zero convention) and NaN
    (which arises only as inf/inf in the composite-ratio step).  None of
    the claims under study depends on rounding of finite values.
  * Network fetches are modelled by their parsed payloads; a transport or
    HTTP failure is the value none, mirroring the api_get helper which
    catches RequestException and returns None.
  * Stateful loops are modelled as structural recursion over the lists
    they iterate; the thread-pool completion order is modelled as an
    arbitrary permutation of the submission list.
-/

/-- PyFloat models the Python float values reachable in this code base:
finite values (as exact rationals), positive infinity, and NaN. -/
inductive PyFloat where
  | fin (q : ℚ)
  | inf
  | nan
deriving DecidableEq

/-- PyFloat.lt models the Python comparison a < b on the PyFloat values:
standard order on finite values, every finite value is below inf, and any
comparison involving NaN is false. -/
def PyFloat.lt : PyFloat → PyFloat → Bool
  | .fin a, .fin b => a < b
  | .fin _, .inf => true
  | .fin _, .nan => false
  | .inf, _ => false
  | .nan, _ => false

/-- PyFloat.div models Python float division for the values and call sites
occurring in this code base.  Every call site guards the divisor with
a strict positivity test, so the fin/fin case never divides by zero there;
inf divided by inf is NaN, a finite value divided by inf is 0, and NaN
propagates. -/
def PyFloat.div : PyFloat → PyFloat → PyFloat
  | .fin a, .fin b => .fin (a / b)
  | .fin _, .inf => .fin 0
  | .fin _, .nan => .nan
  | .inf, .fin _ => .inf
  | .inf, .inf => .nan
  | .inf, .nan => .nan
  | .nan, _ => .nan

/-
Embedding of GIT_SwingHighRejectionDetector.py (pattern pipeline).

A kline, as returned by the Binance klines endpoint, is a list of fields
[openTime, open, high, low, close, volume, ...].  The script converts the
fields with float(p); a field that float() would reject is modelled as
none, a field that parses to the rational q as some q.
-/

/-- Kline is one raw candle record: a list of fields, each either a
parseable number (some q) or an unparseable string (none). -/
def Kline : Type := List (Option ℚ)

/-- floatList models the comprehension [float(p) for p in fields]: it
succeeds with the list of parsed values only when every field parses,
mirroring the ValueError raised by the first unparseable field. -/
def floatList : List (Option ℚ) → Option (List ℚ)
  | [] => some []
  | none :: _ => none
  | some q :: rest => (floatList rest).map (q :: ·)

/-- candle_fields models the slice k[1:5] taken by the script: the
open/high/low/close fields of a kline record. -/
def candle_fields (k : Kline) : List (Option ℚ) :=
  (List.drop 1 k).take 4

/-- parse_candle models [float(p) for p in k[1:5]] followed by unpacking
into the four OHLC components; it yields none whenever a field does not
parse or the slice does not have exactly four fields. -/
def parse_candle (k : Kline) : Option (ℚ × ℚ × ℚ × ℚ) :=
  match floatList (candle_fields k) with
  | some [o, h, l, c] => some (o, h, l, c)
  | _ => none

/-- rule1 from check_conditions: the current, live candle is bearish. -/
def rule1 (c_curr o_curr : ℚ) : Bool := c_curr < o_curr

/-- rule2 from check_conditions: the left candle is bullish. -/
def rule2 (c_left o_left : ℚ) : Bool := c_left > o_left

/-- rule3 from check_conditions: the middle candle makes a higher high. -/
def rule3 (h_left h_mid : ℚ) : Bool := h_left < h_mid

/-- mid_candle_body_top from check_conditions: max of open and close of
the middle candle. -/
def mid_candle_body_top (o_mid c_mid : ℚ) : ℚ := max o_mid c_mid

/-- rule4 from check_conditions: the middle body is rejected back below
the left high. -/
def rule4 (o_mid c_mid h_left : ℚ) : Bool := mid_candle_body_top o_mid c_mid < h_left

/-- rule5 from check_conditions: the middle low stays above the left open. -/
def rule5 (o_left l_mid : ℚ) : Bool := o_left < l_mid

/-- rule6 from check_conditions: the current high stays below the middle
high. -/
def rule6 (h_curr h_mid : ℚ) : Bool := h_curr < h_mid

/-- ratAbs models the Python builtin abs on a rational value. -/
def ratAbs (x : ℚ) : ℚ := if x < 0 then -x else x

/-- rule7 from check_conditions: the middle body is smaller than the left
body, where a body size is abs(open - close). -/
def rule7 (o_mid c_mid o_left c_left : ℚ) : Bool :=
  ratAbs (o_mid - c_mid) < ratAbs (o_left - c_left)

/-- all_seven_rules is the conjunction all([rule1, ..., rule7]) evaluated
by check_conditions on an unpacked 3-candle window. -/
def all_seven_rules (o_left h_left l_left c_left o_mid h_mid l_mid c_mid
    o_curr h_curr l_curr c_curr : ℚ) : Bool :=
  rule1 c_curr o_curr && rule2 c_left o_left && rule3 h_left h_mid &&
  rule4 o_mid c_mid h_left && rule5 o_left l_mid && rule6 h_curr h_mid &&
  rule7 o_mid c_mid o_left c_left

/-- PatternSignal is the observable alert printed by check_conditions:
the triggering symbol and the live close price.  The wall-clock capture
timestamp also printed there is real time and is not modelled. -/
structure PatternSignal where
  coin : String
  price : ℚ
deriving DecidableEq

/-- check_conditions models the function of the same name: given the
fetched klines (none when get_candle_data failed), it validates the data,
unpacks the last three candles, evaluates the seven rules, and emits a
signal exactly when all seven hold.  Unparseable candle data yields no
signal, mirroring the early return (or the exception swallowed by the
executor map) in the script. -/
def check_conditions (symbol : String) (klines : Option (List Kline)) :
    Option PatternSignal :=
  match klines with
  | none => none
  | some ks =>
    if ks.length < 3 then none
    else
      match parse_candle (ks.getD (ks.length - 1) []),
            parse_candle (ks.getD (ks.length - 2) []),
            parse_candle (ks.getD (ks.length - 3) []) with
      | some (o_curr, h_curr, l_curr, c_curr),
        some (o_mid, h_mid, l_mid, c_mid),
        some (o_left, h_left, l_left, c_left) =>
        if all_seven_rules o_left h_left l_left c_left o_mid h_mid l_mid c_mid
            o_curr h_curr l_curr c_curr then
          some { coin := symbol, price := c_curr }
        else
          none
      | _, _, _ => none

/-- scan_signals models one scan cycle of the detector: the executor maps
check_conditions over every symbol, and the emitted signals are exactly
the per-symbol alerts (symbols yielding no signal contribute nothing). -/
def scan_signals (fetch : String → Option (List Kline)) (symbols : List String) :
    List PatternSignal :=
  symbols.filterMap (fun s => check_conditions s (fetch s))

/-- mkKline builds a well-formed kline record with the given OHLC values
(openTime and volume fields are irrelevant to the script and set to 0). -/
def mkKline (o h l c : ℚ) : Kline :=
  [some 0, some o, some h, some l, some c, some 0]

example : check_conditions "A"
    (some [mkKline 10 13 10 12, mkKline 12 15 11 11, mkKline 11 11 9 9]) =
    some { coin := "A", price := 9 } := by
  norm_num [check_conditions, parse_candle, candle_fields, floatList, mkKline,
    all_seven_rules, rule1, rule2, rule3, rule4, rule5, rule6, rule7,
    mid_candle_body_top, ratAbs]

example : check_conditions "A"
    (some [mkKline 10 13 10 12, mkKline 12 15 11 11, mkKline 11 15 9 9]) =
    none := by
  norm_num [check_conditions, parse_candle, candle_fields, floatList, mkKline,
    all_seven_rules, rule1, rule2, rule3, rule4, rule5, rule6, rule7,
    mid_candle_body_top, ratAbs]

example : check_conditions "A" none = none := rfl

/-- check_conditions_window evaluates the detector on a well-formed
3-candle window given as left, middle, current: it emits the signal
precisely when all seven rules hold. -/
theorem check_conditions_window (sym : String)
    (oL hL lL cL oM hM lM cM oC hC lC cC : ℚ) :
    check_conditions sym
      (some [mkKline oL hL lL cL, mkKline oM hM lM cM, mkKline oC hC lC cC]) =
    if all_seven_rules oL hL lL cL oM hM lM cM oC hC lC cC then
      some { coin := sym, price := cC }
    else none := by
  simp only [check_conditions, mkKline, List.length_cons, List.length_nil]
  norm_num [parse_candle, candle_fields, floatList, List.getD]

/-- C2: on a 3-candle window (left, middle, current) the detector emits a
PatternSignal exactly when all seven boolean rules hold simultaneously,
and emits no signal whenever any single rule is false. -/
theorem c2_signal_iff_all_seven_rules (sym : String)
    (oL hL lL cL oM hM lM cM oC hC lC cC : ℚ) :
    (check_conditions sym
        (some [mkKline oL hL lL cL, mkKline oM hM lM cM, mkKline oC hC lC cC]) =
      some { coin := sym, price := cC } ↔
      all_seven_rules oL hL lL cL oM hM lM cM oC hC lC cC = true) ∧
    (all_seven_rules oL hL lL cL oM hM lM cM oC hC lC cC = false →
      check_conditions sym
        (some [mkKline oL hL lL cL, mkKline oM hM lM cM, mkKline oC hC lC cC]) =
      none) := by
  rw [check_conditions_window]
  rcases Bool.eq_false_or_eq_true
      (all_seven_rules oL hL lL cL oM hM lM cM oC hC lC cC) with h | h <;>
    simp [h]

/-- Witness for c2_signal_iff_all_seven_rules: a window whose current
candle is bullish (rule 1 false) yields no signal. -/
theorem c2_signal_iff_all_seven_rules_witness :
    check_conditions "W"
      (some [mkKline 10 13 10 12, mkKline 12 15 11 11, mkKline 9 15 9 15]) =
    none :=
  (c2_signal_iff_all_seven_rules "W" 10 13 10 12 12 15 11 11 9 15 9 15).2
    (by decide)

/-- C10: every one of the seven rules is a strict comparison, so a window
in which any compared pair is exactly equal (current close = current open,
left close = left open, middle high = left high, middle body top = left
high, middle low = left open, current high = middle high, or equal body
sizes) confirms no pattern and emits no signal. -/
theorem c10_exact_equality_suppresses_signal (sym : String)
    (oL hL lL cL oM hM lM cM oC hC lC cC : ℚ)
    (h : cC = oC ∨ cL = oL ∨ hM = hL ∨ mid_candle_body_top oM cM = hL ∨
      lM = oL ∨ hC = hM ∨ ratAbs (oM - cM) = ratAbs (oL - cL)) :
    check_conditions sym
      (some [mkKline oL hL lL cL, mkKline oM hM lM cM, mkKline oC hC lC cC]) =
    none := by
  rw [check_conditions_window]
  have hfalse : all_seven_rules oL hL lL cL oM hM lM cM oC hC lC cC = false := by
    rcases h with h | h | h | h | h | h | h
    · have h1 : rule1 cC oC = false := by simp [rule1, h]
      simp [all_seven_rules, h1]
    · have h1 : rule2 cL oL = false := by simp [rule2, h]
      simp [all_seven_rules, h1]
    · have h1 : rule3 hL hM = false := by simp [rule3, h]
      simp [all_seven_rules, h1]
    · have h1 : rule4 oM cM hL = false := by simp [rule4, h]
      simp [all_seven_rules, h1]
    · have h1 : rule5 oL lM = false := by simp [rule5, h]
      simp [all_seven_rules, h1]
    · have h1 : rule6 hC hM = false := by simp [rule6, h]
      simp [all_seven_rules, h1]
    · have h1 : rule7 oM cM oL cL = false := by simp [rule7, h]
      simp [all_seven_rules, h1]
  simp [hfalse]

/-- Witness for c10_exact_equality_suppresses_signal: a doji current
candle (close = open) emits no signal. -/
theorem c10_exact_equality_suppresses_signal_witness :
    check_conditions "W"
      (some [mkKline 10 13 10 12, mkKline 12 15 11 11, mkKline 9 15 8 9]) =
    none :=
  c10_exact_equality_suppresses_signal "W" 10 13 10 12 12 15 11 11 9 15 8 9
    (Or.inl rfl)

/-- bad_candle_data characterises the failure modes of the candle feed
for one symbol: the fetch failed, fewer than 3 candles were returned, or
one of the three analysed candles does not parse into four numbers. -/
def bad_candle_data (klines : Option (List Kline)) : Prop :=
  klines = none ∨ ∃ ks, klines = some ks ∧
    (ks.length < 3 ∨
     parse_candle (ks.getD (ks.length - 1) []) = none ∨
     parse_candle (ks.getD (ks.length - 2) []) = none ∨
     parse_candle (ks.getD (ks.length - 3) []) = none)

/-- C8: when the candle fetch for a symbol fails, returns fewer than 3
candles, or returns candles whose fields do not parse as numbers, that
symbol is skipped with no signal, and the signals of a scan containing it
are exactly the signals of the sibling symbols (the model is a total
function, so no exception propagates). -/
theorem c8_bad_candle_data_skips_symbol_only
    (fetch : String → Option (List Kline)) (s : String) (l₁ l₂ : List String)
    (h : bad_candle_data (fetch s)) :
    check_conditions s (fetch s) = none ∧
    scan_signals fetch (l₁ ++ s :: l₂) =
      scan_signals fetch l₁ ++ scan_signals fetch l₂ := by
  have hnone : check_conditions s (fetch s) = none := by
    rcases h with h | ⟨ks, hks, hbad⟩
    · rw [h]; rfl
    · rw [hks]
      by_cases hlen : ks.length < 3
      · simp [check_conditions, hlen]
      · rcases hbad with hlen2 | hp | hp | hp
        · exact absurd hlen2 hlen
        all_goals
          simp only [check_conditions]
          rw [if_neg hlen]
          split
          · simp_all
          · rfl
  refine ⟨hnone, ?_⟩
  simp [scan_signals, List.filterMap_append, List.filterMap_cons, hnone]

/-- Witness for c8_bad_candle_data_skips_symbol_only: a failed fetch for
the only symbol of a scan yields no signal and an empty signal list. -/
theorem c8_bad_candle_data_skips_symbol_only_witness :
    check_conditions "X" ((fun _ : String => (none : Option (List Kline))) "X") = none ∧
    scan_signals (fun _ => none) ([] ++ "X" :: []) =
      scan_signals (fun _ => none) [] ++ scan_signals (fun _ => none) [] :=
  c8_bad_candle_data_skips_symbol_only (fun _ => none) "X" [] [] (Or.inl rfl)

/-
Embedding of GIT_BinanceOrderBookAnalyzer.py (and of the line-for-line
identical core of GITOrderFlowImbalanceAnalyzer.py): the trade-flow
pipeline.  The order-book depth parameter only changes the outbound
request and is not part of the computation, so it is not modelled.
-/

/-- DepthResponse is the parsed order-book snapshot: a list of bid levels
and a list of ask levels, each a (price, quantity) pair.  A missing key
in the raw response is the empty list, as in response.get with default. -/
structure DepthResponse where
  bids : List (ℚ × ℚ)
  asks : List (ℚ × ℚ)

/-- AggTrade is one parsed recent-trade record: price p, quantity q, and
the maker flag m (true exactly when the buyer was the maker, i.e. the
aggressor was a seller). -/
structure AggTrade where
  p : ℚ
  q : ℚ
  m : Bool
deriving DecidableEq

/-- calculate_passive_order_value models the function of the same name:
a failed depth fetch (None response) contributes (0, 0); otherwise the
bid and ask notional values are summed. -/
def calculate_passive_order_value (response : Option DepthResponse) : ℚ × ℚ :=
  match response with
  | none => (0, 0)
  | some r =>
    ((r.bids.map (fun pq => pq.1 * pq.2)).sum,
     (r.asks.map (fun pq => pq.1 * pq.2)).sum)

/-- calculate_active_trade_value models the function of the same name:
a failed trades fetch (None response, and likewise an empty response,
which is falsy in Python) contributes (0, 0); otherwise each trade's
notional value is accumulated on the taker-buy side when m is false and
on the taker-sell side when m is true. -/
def calculate_active_trade_value (response : Option (List AggTrade)) : ℚ × ℚ :=
  match response with
  | none => (0, 0)
  | some trades =>
    if trades.isEmpty then (0, 0)
    else trades.foldl (fun acc trade =>
      let notional_value := trade.p * trade.q
      if !trade.m then (acc.1 + notional_value, acc.2)
      else (acc.1, acc.2 + notional_value)) (0, 0)

/-- bs_ratio is the buy/sell ratio computation shared by both ratios in
fetch_and_process_symbol: numerator divided by denominator when the
denominator is strictly positive, else positive infinity. -/
def bs_ratio (num den : ℚ) : PyFloat :=
  if den > 0 then .fin (num / den) else .inf

/-- SymbolEvidence is the per-symbol raw evidence consumed by one unit of
work: the depth snapshot and the recent-trades list, each none when the
corresponding fetch failed. -/
structure SymbolEvidence where
  depth : Option DepthResponse
  trades : Option (List AggTrade)

/-- CoinData is the per-symbol result dictionary built by
fetch_and_process_symbol. -/
structure CoinData where
  coin : String
  limitBuy : ℤ
  limitSell : ℤ
  marketBuy : ℤ
  marketSell : ℤ
  limit_bs_ratio : PyFloat
  market_bs_ratio : PyFloat
deriving DecidableEq

/-- fetch_and_process_symbol models the function of the same name: the
unit of work for one symbol, computing the four notional totals and the
two buy/sell ratios from the evidence.  The int(round(.)) display fields
are modelled with the rounding function on rationals. -/
def fetch_and_process_symbol (symbol : String) (ev : SymbolEvidence) : CoinData :=
  let lv := calculate_passive_order_value ev.depth
  let av := calculate_active_trade_value ev.trades
  { coin := symbol
    limitBuy := round lv.1
    limitSell := round lv.2
    marketBuy := round av.1
    marketSell := round av.2
    limit_bs_ratio := bs_ratio lv.1 lv.2
    market_bs_ratio := bs_ratio av.1 av.2 }

/-- C3: for every numerator n ≥ 0 and denominator d, the buy/sell ratio
is n/d when d > 0 and positive infinity when d = 0 (including 0/0), and
is never NaN; the computation is a total function, so no error occurs. -/
theorem c3_ratio_is_quotient_or_inf (n d : ℚ) (hn : 0 ≤ n) :
    (0 < d → bs_ratio n d = .fin (n / d)) ∧
    (d = 0 → bs_ratio n d = .inf) ∧
    bs_ratio n d ≠ .nan := by
  refine ⟨fun hd => ?_, fun hd => ?_, ?_⟩
  · simp [bs_ratio, hd]
  · simp [bs_ratio, hd]
  · unfold bs_ratio
    split <;> simp

/-- Witness for c3_ratio_is_quotient_or_inf: concrete instances with a
positive denominator, a zero denominator, and the 0/0 case. -/
theorem c3_ratio_is_quotient_or_inf_witness :
    bs_ratio 5 2 = .fin (5 / 2) ∧ bs_ratio 5 0 = .inf ∧ bs_ratio 0 0 = .inf :=
  ⟨(c3_ratio_is_quotient_or_inf 5 2 (by norm_num)).1 (by norm_num),
   (c3_ratio_is_quotient_or_inf 5 0 (by norm_num)).2.1 rfl,
   (c3_ratio_is_quotient_or_inf 0 0 le_rfl).2.1 rfl⟩

/-
Embedding of the universe-resolution loop of main in both analyzer
scripts (identical in GIT_BinanceOrderBookAnalyzer.py and
GITOrderFlowImbalanceAnalyzer.py).
-/

/-- binance_symbol_of is the venue mapping applied to each candidate
symbol: uppercase it and append the USDT quote suffix. -/
def binance_symbol_of (symbol : String) : String :=
  symbol.toUpper ++ "USDT"

/-- match_step is one iteration body of the reconciliation loop: append
the venue-mapped identifier when it is in the tradable set, else leave
the accumulator unchanged. -/
def match_step (bset : String → Bool) (acc : List String) (c : String) :
    List String :=
  if bset (binance_symbol_of c) then acc ++ [binance_symbol_of c] else acc

/-- match_loop is the reconciliation loop over the rank-ordered candidate
list: after each iteration it stops as soon as the accumulator reaches
the target count. -/
def match_loop (bset : String → Bool) (target : ℕ) :
    List String → List String → List String
  | acc, [] => acc
  | acc, c :: rest =>
    if (match_step bset acc c).length = target then match_step bset acc c
    else match_loop bset target (match_step bset acc c) rest

/-- coins_to_analyze is the resolved universe: the reconciliation loop
started from an empty accumulator, as in main. -/
def coins_to_analyze (bset : String → Bool) (target : ℕ)
    (cmc_list : List String) : List String :=
  match_loop bset target [] cmc_list

/-- match_loop_take characterises the loop: starting below the target, it
returns the accumulator extended by the first (target - length acc)
matching venue-mapped candidates, in candidate order. -/
theorem match_loop_take (bset : String → Bool) (target : ℕ) :
    ∀ (cmc acc : List String), acc.length < target →
      match_loop bset target acc cmc =
        acc ++ ((cmc.map binance_symbol_of).filter bset).take (target - acc.length)
  | [], acc, _ => by simp [match_loop]
  | c :: rest, acc, h => by
    by_cases hb : bset (binance_symbol_of c)
    · have hstep : match_step bset acc c = acc ++ [binance_symbol_of c] := by
        simp [match_step, hb]
      have hlen : (match_step bset acc c).length = acc.length + 1 := by
        simp [hstep]
      by_cases ht : acc.length + 1 = target
      · have : target - acc.length = 1 := by omega
        simp [match_loop, hstep, hlen, ht, hb, this]
      · have h2 : (match_step bset acc c).length < target := by omega
        have ih := match_loop_take bset target rest (match_step bset acc c) h2
        rw [match_loop, if_neg (by omega : ¬ (match_step bset acc c).length = target), ih,
          hstep]
        have hsucc : target - acc.length = (target - (acc.length + 1)) + 1 := by omega
        simp [hb, hsucc, List.take_succ_cons, List.append_assoc]
    · have hstep : match_step bset acc c = acc := by
        simp [match_step, hb]
      have ih := match_loop_take bset target rest acc h
      rw [match_loop, hstep, if_neg (by omega : ¬ acc.length = target), ih]
      simp [hb]

/-- coins_to_analyze_eq_take: with a positive target, the resolved
universe is exactly the first target matching venue-mapped candidates in
candidate order. -/
theorem coins_to_analyze_eq_take (bset : String → Bool) (target : ℕ)
    (cmc : List String) (h : 0 < target) :
    coins_to_analyze bset target cmc =
      ((cmc.map binance_symbol_of).filter bset).take target := by
  have := match_loop_take bset target cmc [] (by simpa using h)
  simpa [coins_to_analyze] using this

/-- C4: for every candidate list and membership set (and the positive
target counts used by the scripts), the resolved universe is the first
target matches in candidate order, hence a subsequence of the venue-mapped
candidate list in original order, of length min(target, matches); empty
matches give an empty output. -/
theorem c4_resolver_order_and_length (bset : String → Bool) (target : ℕ)
    (cmc : List String) (h : 0 < target) :
    coins_to_analyze bset target cmc =
      ((cmc.map binance_symbol_of).filter bset).take target ∧
    (coins_to_analyze bset target cmc).Sublist (cmc.map binance_symbol_of) ∧
    (coins_to_analyze bset target cmc).length =
      min target ((cmc.map binance_symbol_of).filter bset).length := by
  have he := coins_to_analyze_eq_take bset target cmc h
  refine ⟨he, ?_, ?_⟩
  · rw [he]
    exact (List.take_sublist _ _).trans (List.filter_sublist _)
  · rw [he, List.length_take]

/-- Witness for c4_resolver_order_and_length at a concrete candidate
list, membership set and target. -/
theorem c4_resolver_order_and_length_witness :
    coins_to_analyze (fun _ => true) 1 ["BTC", "ETH"] =
      (((["BTC", "ETH"] : List String).map binance_symbol_of).filter
        (fun _ => true)).take 1 ∧
    (coins_to_analyze (fun _ => true) 1 ["BTC", "ETH"]).Sublist
      ((["BTC", "ETH"] : List String).map binance_symbol_of) ∧
    (coins_to_analyze (fun _ => true) 1 ["BTC", "ETH"]).length =
      min 1 (((["BTC", "ETH"] : List String).map binance_symbol_of).filter
        (fun _ => true)).length :=
  c4_resolver_order_and_length (fun _ => true) 1 ["BTC", "ETH"] (by decide)

/-- Counterexample to C9 as stated: a candidate list that repeats the
same symbol token produces a universe that repeats the venue-mapped
symbol, so symbols are not unique within the resolved universe. -/
theorem c9_duplicate_candidates_counterexample :
    ¬ (coins_to_analyze (fun _ => true) 2 ["BTC", "BTC"]).Nodup := by
  simp [coins_to_analyze, match_loop, match_step]

/-- C9 amended: whenever the venue-mapped identifiers of the candidate
list are pairwise distinct (and the target is positive, as in both
scripts), each symbol occurs at most once in the resolved universe. -/
theorem c9_amended_unique_given_distinct_candidates (bset : String → Bool)
    (target : ℕ) (cmc : List String) (h : 0 < target)
    (hnd : (cmc.map binance_symbol_of).Nodup) :
    (coins_to_analyze bset target cmc).Nodup := by
  rw [coins_to_analyze_eq_take bset target cmc h]
  exact ((List.take_sublist _ _).trans (List.filter_sublist _)).nodup hnd

/-- Witness for c9_amended_unique_given_distinct_candidates on a
single-candidate list. -/
theorem c9_amended_unique_given_distinct_candidates_witness :
    (coins_to_analyze (fun _ => true) 1 ["BTC"]).Nodup :=
  c9_amended_unique_given_distinct_candidates (fun _ => true) 1 ["BTC"]
    (by decide) (by simp)

/-
Embedding of display_trade_setups (identical in both analyzer scripts):
composite-ratio enrichment, the two filters, and the two stable
descending sorts.  Python list.sort is stable, and sorting with
reverse=True preserves the relative order of equal keys, so the sort is
modelled by the stable mergeSort with the comparator "key not below".
-/

/-- limit_market_ratio models the enrichment of each record in
display_trade_setups: limit ratio over market ratio when the market
ratio is positive, else positive infinity. -/
def limit_market_ratio (c : CoinData) : PyFloat :=
  if PyFloat.lt (.fin 0) c.market_bs_ratio then
    c.limit_bs_ratio.div c.market_bs_ratio
  else .inf

/-- market_limit_ratio models the second enrichment in
display_trade_setups: market ratio over limit ratio when the limit ratio
is positive, else positive infinity. -/
def market_limit_ratio (c : CoinData) : PyFloat :=
  if PyFloat.lt (.fin 0) c.limit_bs_ratio then
    c.market_bs_ratio.div c.limit_bs_ratio
  else .inf

/-- is_potential_short is the filter of the shorts table: limit buy/sell
ratio above 1 and market buy/sell ratio below 1. -/
def is_potential_short (c : CoinData) : Bool :=
  PyFloat.lt (.fin 1) c.limit_bs_ratio && PyFloat.lt c.market_bs_ratio (.fin 1)

/-- is_potential_long is the filter of the longs table: limit buy/sell
ratio below 1 and market buy/sell ratio above 1. -/
def is_potential_long (c : CoinData) : Bool :=
  PyFloat.lt c.limit_bs_ratio (.fin 1) && PyFloat.lt (.fin 1) c.market_bs_ratio

/-- sort_desc_by models list.sort(key=key, reverse=True): a stable sort
placing records with larger keys first, keeping the input order of
records with equal keys. -/
def sort_desc_by (key : CoinData → PyFloat) (l : List CoinData) : List CoinData :=
  l.mergeSort (fun x y => !(PyFloat.lt (key x) (key y)))

/-- potential_shorts is the shorts table of display_trade_setups: filter
then stable descending sort by the limit/market composite ratio. -/
def potential_shorts (all_coin_data : List CoinData) : List CoinData :=
  sort_desc_by limit_market_ratio (all_coin_data.filter is_potential_short)

/-- potential_longs is the longs table of display_trade_setups: filter
then stable descending sort by the market/limit composite ratio. -/
def potential_longs (all_coin_data : List CoinData) : List CoinData :=
  sort_desc_by market_limit_ratio (all_coin_data.filter is_potential_long)

/-- pyfloat_lt_asymm: the modelled float strict comparison is asymmetric. -/
theorem pyfloat_lt_asymm (p q : PyFloat) (h : PyFloat.lt p q = true) :
    PyFloat.lt q p = false := by
  cases p <;> cases q <;> simp_all [PyFloat.lt]
  linarith

/-- pyfloat_lt_irrefl: the modelled float strict comparison is
irreflexive. -/
theorem pyfloat_lt_irrefl (p : PyFloat) : PyFloat.lt p p = false := by
  cases p <;> simp [PyFloat.lt]

/-- C6: the shorts filter and the longs filter are mutually exclusive,
and a record whose limit ratio or market ratio equals 1 satisfies
neither, hence appears in neither ranked table. -/
theorem c6_filters_disjoint_boundary_excluded (c : CoinData) (l : List CoinData) :
    ¬ (is_potential_short c = true ∧ is_potential_long c = true) ∧
    ((c.limit_bs_ratio = .fin 1 ∨ c.market_bs_ratio = .fin 1) →
      is_potential_short c = false ∧ is_potential_long c = false ∧
      c ∉ potential_shorts l ∧ c ∉ potential_longs l) := by
  constructor
  · rintro ⟨hs, hl⟩
    simp only [is_potential_short, Bool.and_eq_true] at hs
    simp only [is_potential_long, Bool.and_eq_true] at hl
    have := pyfloat_lt_asymm _ _ hs.1
    rw [hl.1] at this
    cases this
  · intro hb
    have hshort : is_potential_short c = false := by
      rcases hb with hb | hb <;>
        simp [is_potential_short, hb, pyfloat_lt_irrefl]
    have hlong : is_potential_long c = false := by
      rcases hb with hb | hb <;>
        simp [is_potential_long, hb, pyfloat_lt_irrefl]
    refine ⟨hshort, hlong, ?_, ?_⟩
    · rw [potential_shorts, sort_desc_by]
      intro hmem
      rw [List.mem_mergeSort] at hmem
      have := (List.mem_filter.mp hmem).2
      rw [hshort] at this
      cases this
    · rw [potential_longs, sort_desc_by]
      intro hmem
      rw [List.mem_mergeSort] at hmem
      have := (List.mem_filter.mp hmem).2
      rw [hlong] at this
      cases this

/-- Witness for c6_filters_disjoint_boundary_excluded at a record whose
limit ratio is exactly 1. -/
theorem c6_filters_disjoint_boundary_excluded_witness :
    is_potential_short ⟨"B", 0, 0, 0, 0, .fin 1, .fin 2⟩ = false ∧
    is_potential_long ⟨"B", 0, 0, 0, 0, .fin 1, .fin 2⟩ = false ∧
    (⟨"B", 0, 0, 0, 0, .fin 1, .fin 2⟩ : CoinData) ∉
      potential_shorts [⟨"B", 0, 0, 0, 0, .fin 1, .fin 2⟩] ∧
    (⟨"B", 0, 0, 0, 0, .fin 1, .fin 2⟩ : CoinData) ∉
      potential_longs [⟨"B", 0, 0, 0, 0, .fin 1, .fin 2⟩] :=
  (c6_filters_disjoint_boundary_excluded ⟨"B", 0, 0, 0, 0, .fin 1, .fin 2⟩
    [⟨"B", 0, 0, 0, 0, .fin 1, .fin 2⟩]).2 (Or.inl rfl)

/-- pyfloat_ge_total is a total, transitive comparator agreeing with the
descending comparator "not (key below)" on every non-NaN pair; it is used
only to reason about the stable sorts, whose input keys are never NaN. -/
def pyfloat_ge_total : PyFloat → PyFloat → Bool
  | .fin a, .fin b => b ≤ a
  | .fin _, .inf => false
  | .fin _, .nan => false
  | .inf, .fin _ => true
  | .inf, .inf => true
  | .inf, .nan => false
  | .nan, _ => true

/-- pfge_eq_not_lt: on non-NaN values the total comparator coincides with
the negated strict comparison used by the descending sort. -/
theorem pfge_eq_not_lt (p q : PyFloat) (hp : p ≠ .nan) (hq : q ≠ .nan) :
    (!(PyFloat.lt p q)) = pyfloat_ge_total p q := by
  cases p <;> cases q <;>
    simp_all [PyFloat.lt, pyfloat_ge_total, ← decide_not, decide_eq_decide, not_lt]

/-- pfge_trans: the total comparator is transitive. -/
theorem pfge_trans (a b c : PyFloat) (hab : pyfloat_ge_total a b = true)
    (hbc : pyfloat_ge_total b c = true) : pyfloat_ge_total a c = true := by
  cases a <;> cases b <;> cases c <;>
    simp_all [pyfloat_ge_total]
  linarith

/-- pfge_total: the total comparator is total. -/
theorem pfge_total (a b : PyFloat) :
    (pyfloat_ge_total a b || pyfloat_ge_total b a) = true := by
  cases a <;> cases b <;> simp [pyfloat_ge_total, le_total]

/-- pfge_refl: the total comparator is reflexive. -/
theorem pfge_refl (a : PyFloat) : pyfloat_ge_total a a = true := by
  cases a <;> simp [pyfloat_ge_total]

/-- div_ne_nan: a division with a finite divisor and a non-NaN dividend
is never NaN. -/
theorem div_ne_nan (p : PyFloat) (m : ℚ) (hp : p ≠ .nan) :
    p.div (.fin m) ≠ .nan := by
  cases p <;> simp_all [PyFloat.div]

/-- lt_fin_fin: a value strictly below a finite value is finite. -/
theorem lt_fin_fin (p : PyFloat) (r : ℚ) (h : PyFloat.lt p (.fin r) = true) :
    ∃ m, p = .fin m := by
  cases p <;> simp_all [PyFloat.lt]

/-- fin_lt_ne_nan: a value strictly above a finite value is not NaN. -/
theorem fin_lt_ne_nan (p : PyFloat) (r : ℚ) (h : PyFloat.lt (.fin r) p = true) :
    p ≠ .nan := by
  cases p <;> simp_all [PyFloat.lt]

/-- short_key_ne_nan: every record passing the shorts filter has a
non-NaN limit/market composite key. -/
theorem short_key_ne_nan (c : CoinData) (h : is_potential_short c = true) :
    limit_market_ratio c ≠ .nan := by
  simp only [is_potential_short, Bool.and_eq_true] at h
  unfold limit_market_ratio
  split
  · obtain ⟨m, hm⟩ := lt_fin_fin _ _ h.2
    rw [hm]
    exact div_ne_nan _ _ (fin_lt_ne_nan _ _ h.1)
  · simp

/-- long_key_ne_nan: every record passing the longs filter has a non-NaN
market/limit composite key. -/
theorem long_key_ne_nan (c : CoinData) (h : is_potential_long c = true) :
    market_limit_ratio c ≠ .nan := by
  simp only [is_potential_long, Bool.and_eq_true] at h
  unfold market_limit_ratio
  split
  · obtain ⟨m, hm⟩ := lt_fin_fin _ _ h.1
    rw [hm]
    exact div_ne_nan _ _ (fin_lt_ne_nan _ _ h.2)
  · simp

/-- sort_desc_by_eq_total: on a list whose keys are all non-NaN, the
descending sort coincides with the sort by the total comparator. -/
theorem sort_desc_by_eq_total (key : CoinData → PyFloat) (l : List CoinData)
    (h : ∀ c ∈ l, key c ≠ .nan) :
    sort_desc_by key l =
      l.mergeSort (fun x y => pyfloat_ge_total (key x) (key y)) := by
  unfold sort_desc_by
  have hmap := List.map_mergeSort (f := fun c : CoinData => c) (l := l)
    (r := fun x y => !(PyFloat.lt (key x) (key y)))
    (s := fun x y => pyfloat_ge_total (key x) (key y))
    (fun a ha b hb => pfge_eq_not_lt _ _ (h a ha) (h b hb))
  simpa using hmap

/-- C7: the descending sorts of the shorts table and the longs table are
stable: two records with equal sort keys that appear in a given order in
the filtered input appear in the same order in the sorted table. -/
theorem c7_ranking_sorts_are_stable (l : List CoinData) (a b : CoinData) :
    (limit_market_ratio a = limit_market_ratio b →
      [a, b].Sublist (l.filter is_potential_short) →
      [a, b].Sublist (potential_shorts l)) ∧
    (market_limit_ratio a = market_limit_ratio b →
      [a, b].Sublist (l.filter is_potential_long) →
      [a, b].Sublist (potential_longs l)) := by
  constructor
  · intro hk hsub
    rw [potential_shorts, sort_desc_by_eq_total _ _
      (fun c hc => short_key_ne_nan c (List.mem_filter.mp hc).2)]
    exact List.pair_sublist_mergeSort
      (fun x y z hxy hyz => pfge_trans _ _ _ hxy hyz)
      (fun x y => pfge_total _ _)
      (by rw [hk]; exact pfge_refl _) hsub
  · intro hk hsub
    rw [potential_longs, sort_desc_by_eq_total _ _
      (fun c hc => long_key_ne_nan c (List.mem_filter.mp hc).2)]
    exact List.pair_sublist_mergeSort
      (fun x y z hxy hyz => pfge_trans _ _ _ hxy hyz)
      (fun x y => pfge_total _ _)
      (by rw [hk]; exact pfge_refl _) hsub

/-- short_fixture_a is a shorts-table record used by the stability
witness. -/
def short_fixture_a : CoinData := ⟨"A", 0, 0, 0, 0, .fin 2, .fin 0⟩

/-- short_fixture_b is a second shorts-table record with the same sort
key as short_fixture_a but a different symbol. -/
def short_fixture_b : CoinData := ⟨"B", 0, 0, 0, 0, .fin 2, .fin 0⟩

/-- Witness for c7_ranking_sorts_are_stable: two equal-key shorts-table
records keep their input order in the sorted table. -/
theorem c7_ranking_sorts_are_stable_witness :
    [short_fixture_a, short_fixture_b].Sublist
      (potential_shorts [short_fixture_a, short_fixture_b]) :=
  (c7_ranking_sorts_are_stable [short_fixture_a, short_fixture_b]
      short_fixture_a short_fixture_b).1 rfl
    (by simp [short_fixture_a, short_fixture_b, is_potential_short, PyFloat.lt])

/-
Embedding of the collection and re-sort step of main: futures complete
in an unspecified arrival order (a permutation of the submitted symbol
list), each result is appended as it completes, and the collection is
then re-sorted by the position of its symbol in the canonical list.
-/

/-- scan_results models the collected per-symbol results of one scan in
a given task completion order: each completed task appends the processed
record of its symbol. -/
def scan_results (ev : String → SymbolEvidence) (arrival : List String) :
    List CoinData :=
  arrival.map (fun s => fetch_and_process_symbol s (ev s))

/-- list_index models the Python list.index method: the position of the
first occurrence of x. -/
def list_index (x : String) : List String → ℕ
  | [] => 0
  | y :: ys => if y = x then 0 else list_index x ys + 1

/-- sort_by_market_cap_order models the re-sort
current_run_data.sort(key=lambda x: coins_to_analyze.index(x[coin])):
a stable ascending sort by the position of the symbol in the canonical
universe list. -/
def sort_by_market_cap_order (univ : List String)
    (results : List CoinData) : List CoinData :=
  results.mergeSort (fun x y =>
    decide (list_index x.coin univ ≤ list_index y.coin univ))

/-- fetch_and_process_symbol_coin: the result record carries its own
symbol in the coin field. -/
theorem fetch_and_process_symbol_coin (s : String) (ev : SymbolEvidence) :
    (fetch_and_process_symbol s ev).coin = s := rfl

/-- list_index_getElem: in a duplicate-free list the index of the i-th
element is i. -/
theorem list_index_getElem (l : List String) (hnd : l.Nodup) :
    ∀ (i : ℕ) (h : i < l.length), list_index (l.get ⟨i, h⟩) l = i := by
  induction l with
  | nil => intro i h; simp at h
  | cons y ys ih =>
    intro i h
    cases i with
    | zero => simp [list_index]
    | succ j =>
      have hj : j < ys.length := by simpa using h
      have hmem : ys.get ⟨j, hj⟩ ∈ ys := List.get_mem ys j hj
      have hne : y ≠ ys.get ⟨j, hj⟩ :=
        fun he => (List.nodup_cons.mp hnd).1 (he ▸ hmem)
      show list_index (ys.get ⟨j, hj⟩) (y :: ys) = j + 1
      rw [list_index, if_neg hne, ih (List.nodup_cons.mp hnd).2 j hj]

/-- list_index_inj: on members of a list, equal indices force equal
elements. -/
theorem list_index_inj (l : List String) (a b : String) (ha : a ∈ l)
    (hb : b ∈ l) (h : list_index a l = list_index b l) : a = b := by
  induction l with
  | nil => cases ha
  | cons y ys ih =>
    by_cases hya : y = a <;> by_cases hyb : y = b
    · rw [← hya, ← hyb]
    · rw [list_index, list_index, if_pos hya, if_neg hyb] at h
      cases h
    · rw [list_index, list_index, if_neg hya, if_pos hyb] at h
      cases h
    · have ha2 : a ∈ ys := by
        rcases List.mem_cons.mp ha with h2 | h2
        · exact absurd h2.symm hya
        · exact h2
      have hb2 : b ∈ ys := by
        rcases List.mem_cons.mp hb with h2 | h2
        · exact absurd h2.symm hyb
        · exact h2
      rw [list_index, list_index, if_neg hya, if_neg hyb] at h
      exact ih ha2 hb2 (by omega)

/-- pairwise_list_index: along a duplicate-free list the indices are
monotone. -/
theorem pairwise_list_index (l : List String) (hnd : l.Nodup) :
    l.Pairwise (fun a b => list_index a l ≤ list_index b l) := by
  rw [List.pairwise_iff_get]
  intro i j hij
  rw [list_index_getElem l hnd i.1 i.2, list_index_getElem l hnd j.1 j.2]
  omega

/-- perm_eq_of_sorted restates the library uniqueness of sorted
permutations with the relation as an explicit argument. -/
theorem perm_eq_of_sorted {α : Type} (r : α → α → Prop) {l₁ l₂ : List α}
    (w : ∀ a b, a ∈ l₁ → b ∈ l₂ → r a b → r b a → a = b)
    (s₁ : l₁.Pairwise r) (s₂ : l₂.Pairwise r) (p : l₁.Perm l₂) : l₁ = l₂ :=
  List.Perm.eq_of_sorted w s₁ s₂ p

/-- sorted_mergeSort_of restates the library sortedness of mergeSort with
the comparator as an explicit argument. -/
theorem sorted_mergeSort_of {α : Type} (cmp : α → α → Bool)
    (htrans : ∀ a b c : α, cmp a b = true → cmp b c = true → cmp a c = true)
    (htotal : ∀ a b : α, (cmp a b || cmp b a) = true) (l : List α) :
    (l.mergeSort cmp).Pairwise (fun a b => cmp a b = true) :=
  List.sorted_mergeSort htrans htotal l

/-- sort_recovers_universe_order: whatever the completion order, the
re-sort step restores exactly the results in the canonical order. -/
theorem sort_recovers_universe_order (ev : String → SymbolEvidence)
    (univ arrival : List String) (hnd : univ.Nodup)
    (hp : arrival.Perm univ) :
    sort_by_market_cap_order univ (scan_results ev arrival) =
      scan_results ev univ := by
  have htrans : ∀ x y z : CoinData,
      decide (list_index x.coin univ ≤ list_index y.coin univ) = true →
      decide (list_index y.coin univ ≤ list_index z.coin univ) = true →
      decide (list_index x.coin univ ≤ list_index z.coin univ) = true := by
    intro x y z hxy hyz
    simp only [decide_eq_true_eq] at hxy hyz ⊢
    omega
  have htotal : ∀ x y : CoinData,
      (decide (list_index x.coin univ ≤ list_index y.coin univ) ||
       decide (list_index y.coin univ ≤ list_index x.coin univ)) = true := by
    intro x y
    simp only [Bool.or_eq_true, decide_eq_true_eq]
    omega
  apply perm_eq_of_sorted
    (fun x y : CoinData => list_index x.coin univ ≤ list_index y.coin univ)
  · intro a b hma hmb hab hba
    have hmem : a ∈ scan_results ev arrival := by
      rw [sort_by_market_cap_order, List.mem_mergeSort] at hma
      exact hma
    obtain ⟨s, hs, rfl⟩ := List.mem_map.mp hmem
    obtain ⟨t, ht, rfl⟩ := List.mem_map.mp hmb
    have hsu : s ∈ univ := hp.subset hs
    have hst : s = t := by
      apply list_index_inj univ s t hsu ht
      rw [fetch_and_process_symbol_coin] at hab hba
      rw [fetch_and_process_symbol_coin] at hab hba
      omega
    rw [hst]
  · have hs := sorted_mergeSort_of
      (fun x y : CoinData =>
        decide (list_index x.coin univ ≤ list_index y.coin univ))
      htrans htotal (scan_results ev arrival)
    exact hs.imp (fun h => by simpa using h)
  · rw [scan_results, List.pairwise_map]
    refine (pairwise_list_index univ hnd).imp ?_
    intro a b h
    rw [fetch_and_process_symbol_coin, fetch_and_process_symbol_coin]
    exact h
  · exact (List.mergeSort_perm (scan_results ev arrival) _).trans
      (hp.map (fun s => fetch_and_process_symbol s (ev s)))

/-- C5: over a fixed evidence set, any two task completion orders (in
particular those produced by worker count 1 and worker count N) yield the
same re-sorted collection and hence identical ranked short and long
tables, because the orchestrator re-sorts the collected results into the
canonical universe rank order. -/
theorem c5_ranked_output_independent_of_completion_order
    (ev : String → SymbolEvidence) (univ arrival₁ arrival₂ : List String)
    (hnd : univ.Nodup) (h1 : arrival₁.Perm univ)
    (h2 : arrival₂.Perm univ) :
    sort_by_market_cap_order univ (scan_results ev arrival₁) =
      sort_by_market_cap_order univ (scan_results ev arrival₂) ∧
    potential_shorts
        (sort_by_market_cap_order univ (scan_results ev arrival₁)) =
      potential_shorts
        (sort_by_market_cap_order univ (scan_results ev arrival₂)) ∧
    potential_longs
        (sort_by_market_cap_order univ (scan_results ev arrival₁)) =
      potential_longs
        (sort_by_market_cap_order univ (scan_results ev arrival₂)) := by
  rw [sort_recovers_universe_order ev univ arrival₁ hnd h1,
    sort_recovers_universe_order ev univ arrival₂ hnd h2]
  exact ⟨rfl, rfl, rfl⟩

/-- Witness for c5_ranked_output_independent_of_completion_order on a
two-symbol universe with reversed completion order. -/
theorem c5_ranked_output_independent_of_completion_order_witness :
    sort_by_market_cap_order ["A", "B"]
        (scan_results (fun _ => ⟨none, none⟩) ["B", "A"]) =
      sort_by_market_cap_order ["A", "B"]
        (scan_results (fun _ => ⟨none, none⟩) ["A", "B"]) ∧
    potential_shorts (sort_by_market_cap_order ["A", "B"]
        (scan_results (fun _ => ⟨none, none⟩) ["B", "A"])) =
      potential_shorts (sort_by_market_cap_order ["A", "B"]
        (scan_results (fun _ => ⟨none, none⟩) ["A", "B"])) ∧
    potential_longs (sort_by_market_cap_order ["A", "B"]
        (scan_results (fun _ => ⟨none, none⟩) ["B", "A"])) =
      potential_longs (sort_by_market_cap_order ["A", "B"]
        (scan_results (fun _ => ⟨none, none⟩) ["A", "B"])) :=
  c5_ranked_output_independent_of_completion_order (fun _ => ⟨none, none⟩)
    ["A", "B"] ["B", "A"] ["A", "B"] (by decide) (by decide) (by decide)

/-- depth_failure_evidence is evidence for one symbol whose depth fetch
failed while the trades fetch returned a single taker sell. -/
def depth_failure_evidence : SymbolEvidence :=
  ⟨none, some [⟨1, 100, true⟩]⟩

/-- Counterexample to C1 as stated: in the flow pipeline a failed depth
fetch does not produce a failure marker surfaced as an omission from the
ranked output; the symbol is processed with zero passive totals, falls
into the infinity-ratio convention, and here even appears in the ranked
shorts table. -/
theorem c1_depth_failure_not_omitted_counterexample :
    depth_failure_evidence.depth = none ∧
    fetch_and_process_symbol "F" depth_failure_evidence ∈
      potential_shorts [fetch_and_process_symbol "F" depth_failure_evidence] := by
  refine ⟨rfl, ?_⟩
  have hc : is_potential_short
      (fetch_and_process_symbol "F" depth_failure_evidence) = true := by
    norm_num [fetch_and_process_symbol, depth_failure_evidence,
      calculate_passive_order_value, calculate_active_trade_value, bs_ratio,
      is_potential_short, PyFloat.lt]
  rw [potential_shorts, sort_desc_by, List.mem_mergeSort, List.mem_filter]
  exact ⟨List.mem_singleton_self _, hc⟩

/-- C1 amended: a transport-level failure of the depth fetch (or of the
trades fetch) contributes zero totals for that feed and the documented
infinity convention for the affected ratio, while the symbol still yields
a normal result that is collected rather than omitted; per-symbol
processing is a total function (no exception crosses the task boundary)
and every sibling symbol is processed from its own evidence alone.  In
the candle pipeline a failed fetch does yield a per-symbol omission. -/
theorem c1_amended_fetch_failure_zero_contribution
    (sym : String) (ev : SymbolEvidence) (evf : String → SymbolEvidence)
    (l₁ l₂ : List String) (fetch : String → Option (List Kline)) :
    (ev.depth = none →
      (fetch_and_process_symbol sym ev).limitBuy = 0 ∧
      (fetch_and_process_symbol sym ev).limitSell = 0 ∧
      (fetch_and_process_symbol sym ev).limit_bs_ratio = .inf) ∧
    (ev.trades = none →
      (fetch_and_process_symbol sym ev).marketBuy = 0 ∧
      (fetch_and_process_symbol sym ev).marketSell = 0 ∧
      (fetch_and_process_symbol sym ev).market_bs_ratio = .inf) ∧
    scan_results evf (l₁ ++ sym :: l₂) =
      scan_results evf l₁ ++
        fetch_and_process_symbol sym (evf sym) :: scan_results evf l₂ ∧
    (fetch sym = none →
      check_conditions sym (fetch sym) = none ∧
      scan_signals fetch (l₁ ++ sym :: l₂) =
        scan_signals fetch l₁ ++ scan_signals fetch l₂) := by
  refine ⟨fun hd => ?_, fun ht => ?_, ?_, fun hf => ?_⟩
  · refine ⟨?_, ?_, ?_⟩ <;>
      simp [fetch_and_process_symbol, calculate_passive_order_value, hd, bs_ratio]
  · refine ⟨?_, ?_, ?_⟩ <;>
      simp [fetch_and_process_symbol, calculate_active_trade_value, ht, bs_ratio]
  · simp [scan_results]
  · have hnone : check_conditions sym (fetch sym) = none := by
      rw [hf]; rfl
    exact ⟨hnone,
      by simp [scan_signals, List.filterMap_append, List.filterMap_cons, hnone]⟩

/-- Witness for c1_amended_fetch_failure_zero_contribution with both
per-symbol fetches failed. -/
theorem c1_amended_fetch_failure_zero_contribution_witness :
    ((fetch_and_process_symbol "F" ⟨none, none⟩).limitBuy = 0 ∧
     (fetch_and_process_symbol "F" ⟨none, none⟩).limitSell = 0 ∧
     (fetch_and_process_symbol "F" ⟨none, none⟩).limit_bs_ratio = .inf) ∧
    ((fetch_and_process_symbol "F" ⟨none, none⟩).marketBuy = 0 ∧
     (fetch_and_process_symbol "F" ⟨none, none⟩).marketSell = 0 ∧
     (fetch_and_process_symbol "F" ⟨none, none⟩).market_bs_ratio = .inf) ∧
    (check_conditions "F" ((fun _ : String => (none : Option (List Kline))) "F") = none ∧
     scan_signals (fun _ => none) ([] ++ "F" :: []) =
       scan_signals (fun _ => none) [] ++ scan_signals (fun _ => none) []) :=
  have h := c1_amended_fetch_failure_zero_contribution "F" ⟨none, none⟩
    (fun _ => ⟨none, none⟩) [] [] (fun _ => none)
  ⟨h.1 rfl, h.2.1 rfl, h.2.2.2 rfl⟩
